import Mathlib

/-!
Verification development for the scheme-rs interpreter.

Shallow embedding of the evaluation core: the value model (value.rs),
the environment and closure model (env.rs), the pure primitives
(primitive.rs) and the mutually recursive eval/apply pair (eval.rs).

Modelling conventions:
* Rust `i64` is modelled as `Int`; `+`, `-` and `*` use two's-complement
  wrapping (release-profile semantics, the documented choice for the
  source's unspecified overflow behaviour), while `/` and `%` keep the
  Rust behaviour of panicking on a zero divisor or on `i64::MIN / -1`.
* `HashMap<String, usize>` is modelled as a duplicate-free association
  list (`VarMap`); `insert` replaces any previous binding of the key.
* Rust panics (`todo!()`, integer division by zero, out-of-bounds
  indexing) are modelled by the `Outcome.panic` constructor; they are not
  members of the error enum `Error` and abort evaluation without any
  restore step, exactly as an unwinding panic would.
* The mutually recursive `eval`/`apply` pair is made total with a fuel
  parameter; `Outcome.timeout` marks fuel exhaustion and is a model
  artefact with no counterpart in the source.
* The effectful pieces that `eval.rs` imports but that are absent from
  the sources (`primitive::load`, the port/IO procedures) are modelled
  abstractly as returning `Error.Io` without touching the variable store;
  no claim depends on their behaviour.
-/

set_option maxRecDepth 4000

namespace SchemeRs

/-- Identifiers of the pure primitives dispatched in `apply` (eval.rs). -/
inductive PrimitiveFunc where
  | Add | Sub | Mul | Div | Rem
  | Eq | Lt | Gt | Ne | Ge | Le
  | And | Or
  | StringEq | StringLt | StringGt | StringLe | StringGe
  | Car | Cdr | Cons | Eqv | Equal
deriving DecidableEq

/-- Identifiers of the IO-effecting primitives dispatched in `apply` (eval.rs). -/
inductive IOFunc where
  | Apply | MakeReadPort | MakeWritePort | ClosePort | Read | Write
  | ReadContents | ReadAll
deriving DecidableEq

/-- Name-to-slot mapping, the model of `HashMap<String, usize>` (env.rs
`Closure.vars` and `Env.vars`). Kept duplicate-free by `VarMap.insert`. -/
abbrev VarMap := List (String × Nat)

/-- Runtime values (value.rs `Value`, in the variant used by eval.rs:
primitives and IO primitives are enumerated, and a closure captures a
name-to-slot mapping). -/
inductive Value where
  | Atom (s : String)
  | List (l : List Value)
  | DottedList (l : List Value) (tail : Value)
  | Number (n : Int)
  | String (s : String)
  | Bool (b : Bool)
  | PrimitiveFunc (f : PrimitiveFunc)
  | IOFunc (f : IOFunc)
  | Func (params : List String) (vararg : Option String) (body : List Value)
      (closure : VarMap)
  | Port (id : Nat)

/-- The closed error taxonomy (error.rs `Error`; `NotFunction` carries the
offending value as used at eval.rs:73, and the parse-error variant is
omitted because no modelled code path produces it). -/
inductive Error where
  | NumArgs (expected : Nat) (found : List Value)
  | TypeMismatch (expected : String) (found : Value)
  | BadSpecialForm (msg : String) (form : Value)
  | NotFunction (v : Value)
  | UnboundVar (msg : String) (name : String)
  | EmptyBody
  | Io
  | Port (msg : String)

/-- Result of running a piece of the interpreter: a value, an error of the
closed taxonomy, a process-terminating panic, or fuel exhaustion (a model
artefact). -/
inductive Outcome (α : Type) where
  | ok (a : α)
  | err (e : Error)
  | panic (msg : String)
  | timeout

/-- The mutable environment (env.rs `Env`): a growable slot store `vals`
plus the live name-to-slot mapping `vars`. The port table is omitted: no
modelled operation touches it. -/
structure Env where
  vals : List Value
  vars : VarMap

/-- HashMap lookup. -/
def VarMap.get (m : VarMap) (k : String) : Option Nat :=
  match m.find? (fun p => p.1 == k) with
  | some p => some p.2
  | none => none

/-- HashMap insert: replaces any previous binding of `k`. -/
def VarMap.insert (m : VarMap) (k : String) (i : Nat) : VarMap :=
  (k, i) :: m.filter (fun p => !(p.1 == k))

/-- env.rs `Env::get_var`: the `self.vals[*i]` indexing panics when the
slot index is out of bounds. -/
def Env.get_var (env : Env) (var : String) : Outcome Value :=
  match env.vars.get var with
  | some i =>
    match env.vals[i]? with
    | some v => .ok v
    | none => .panic "index out of bounds"
  | none => .err (.UnboundVar "Getting an unbound variable" var)

/-- env.rs `Env::set_var`: overwrites the slot contents in place; the
`self.vals[*i] = val` indexing panics when the slot index is out of
bounds. -/
def Env.set_var (env : Env) (var : String) (val : Value) : Outcome Value × Env :=
  match env.vars.get var with
  | some i =>
    if i < env.vals.length then
      (.ok val, { env with vals := env.vals.set i val })
    else
      (.panic "index out of bounds", env)
  | none => (.err (.UnboundVar "Setting an unbound var" var), env)

/-- env.rs `Env::define_var`: always allocates a fresh slot at the end of
the store and points the name at it; returns the defined value. -/
def Env.define_var (env : Env) (var : String) (val : Value) : Value × Env :=
  let i := env.vals.length
  (val, { env with vars := env.vars.insert var i, vals := env.vals ++ [val] })

/-- env.rs `Env::make_closure`: a snapshot is a copy of the live
name-to-slot mapping. -/
def Env.make_closure (env : Env) : VarMap :=
  env.vars

/-- env.rs `Env::with_closure`: merges the snapshot into the live mapping,
snapshot entries winning. -/
def Env.with_closure (env : Env) (closure : VarMap) : Env :=
  { env with vars := closure.foldl (fun m p => m.insert p.1 p.2) env.vars }

/-- env.rs `Env::load_closure`: replaces the live mapping wholesale. -/
def Env.load_closure (env : Env) (closure : VarMap) : Env :=
  { env with vars := closure }

/-- Two's-complement wrap into the `i64` range. -/
def wrap64 (z : Int) : Int :=
  (z + 2 ^ 63) % 2 ^ 64 - 2 ^ 63

/-- Rust `i64` addition (release profile: wrapping). -/
def i64add (a b : Int) : Option Int := some (wrap64 (a + b))

/-- Rust `i64` subtraction (release profile: wrapping). -/
def i64sub (a b : Int) : Option Int := some (wrap64 (a - b))

/-- Rust `i64` multiplication (release profile: wrapping). -/
def i64mul (a b : Int) : Option Int := some (wrap64 (a * b))

/-- Rust `i64` division: truncating; panics (`none`) on a zero divisor or
on `i64::MIN / -1`, in every build profile. -/
def i64div (a b : Int) : Option Int :=
  if b = 0 ∨ (a = -(2 ^ 63) ∧ b = -1) then none else some (Int.tdiv a b)

/-- Rust `i64` remainder: sign of the dividend; panics (`none`) on a zero
divisor or on `i64::MIN % -1`, in every build profile. -/
def i64rem (a b : Int) : Option Int :=
  if b = 0 ∨ (a = -(2 ^ 63) ∧ b = -1) then none else some (Int.tmod a b)

/-- Numeric value of a list of ASCII digits; `none` when the list is empty
or contains a non-digit. -/
def digitsVal (cs : List Char) : Option Nat :=
  if cs = [] then none
  else if cs.all Char.isDigit then
    some (cs.foldl (fun a c => a * 10 + (c.toNat - '0'.toNat)) 0)
  else none

/-- Rust `str::parse::<i64>`: an optional sign, one or more ASCII digits,
and the result must fit in `i64`. -/
def parseI64 (s : String) : Option Int :=
  let signAndDigits : Int × List Char :=
    match s.data with
    | '+' :: rest => (1, rest)
    | '-' :: rest => (-1, rest)
    | rest => (1, rest)
  match digitsVal signAndDigits.2 with
  | some m =>
    let v : Int := signAndDigits.1 * m
    if -(2 ^ 63) ≤ v ∧ v ≤ 2 ^ 63 - 1 then some v else none
  | none => none

/-- primitive.rs `as_number`: a `Number`, or a `Str` that parses as an
integer; anything else is a type mismatch naming "number". -/
def as_number : Value → Except Error Int
  | .Number n => .ok n
  | .String s =>
    match parseI64 s with
    | some n => .ok n
    | none => .error (.TypeMismatch "number" (.String s))
  | v => .error (.TypeMismatch "number" v)

/-- primitive.rs `as_string`: a `Str`, or a stringified `Number` or
`Bool`; anything else is a type mismatch naming "string". -/
def as_string : Value → Except Error String
  | .String s => .ok s
  | .Number n => .ok (toString n)
  | .Bool b => .ok (if b then "true" else "false")
  | v => .error (.TypeMismatch "string" v)

/-- primitive.rs `as_bool`: only a `Bool`; anything else is a type
mismatch naming "bool". -/
def as_bool : Value → Except Error Bool
  | .Bool b => .ok b
  | v => .error (.TypeMismatch "bool" v)

/-- primitive.rs `bool_binop`: exactly two arguments, both coerced with
`c`, combined with `f`. -/
def bool_binop {α : Type} (c : Value → Except Error α) (f : α → α → Bool)
    (vals : List Value) : Outcome Value :=
  match vals with
  | [lhs, rhs] =>
    match c lhs with
    | .error e => .err e
    | .ok l =>
      match c rhs with
      | .error e => .err e
      | .ok r => .ok (.Bool (f l r))
  | _ => .err (.NumArgs 2 vals)

/-- primitive.rs `numeric_bool_binop`. -/
def numeric_bool_binop (f : Int → Int → Bool) (vals : List Value) : Outcome Value :=
  bool_binop as_number f vals

/-- primitive.rs `bool_bool_binop`. -/
def bool_bool_binop (f : Bool → Bool → Bool) (vals : List Value) : Outcome Value :=
  bool_binop as_bool f vals

/-- primitive.rs `string_bool_binop`. -/
def string_bool_binop (f : String → String → Bool) (vals : List Value) : Outcome Value :=
  bool_binop as_string f vals

/-- Coerce every argument with `as_number`, stopping at the first failure
(the semantics of `collect::<Result<Vec<_>>>` over the mapped iterator). -/
def as_number_list : List Value → Except Error (List Int)
  | [] => .ok []
  | v :: vs =>
    match as_number v with
    | .error e => .error e
    | .ok n =>
      match as_number_list vs with
      | .error e => .error e
      | .ok ns => .ok (n :: ns)

/-- Left fold of a partial `i64` operator; `none` models the panic of a
failing division step. -/
def foldNums (f : Int → Int → Option Int) : Int → List Int → Option Int
  | acc, [] => some acc
  | acc, n :: ns =>
    match f acc n with
    | some acc2 => foldNums f acc2 ns
    | none => none

/-- primitive.rs `numeric_binop`: fewer than two arguments is
`NumArgs(2, args)`; otherwise coerce all arguments and reduce them
left-to-right with `f` (a division step with an illegal divisor panics). -/
def numeric_binop (f : Int → Int → Option Int) (vals : List Value) : Outcome Value :=
  match vals with
  | [] => .err (.NumArgs 2 [])
  | [v] => .err (.NumArgs 2 [v])
  | _ =>
    match as_number_list vals with
    | .error e => .err e
    | .ok nums =>
      match nums with
      | n :: ns =>
        match foldNums f n ns with
        | some r => .ok (.Number r)
        | none => .panic "attempt to divide by zero"
      | [] => .err (.NumArgs 2 vals)

/-- primitive.rs `car`. -/
def car (vals : List Value) : Outcome Value :=
  match vals with
  | [.List l] =>
    match l with
    | v :: _ => .ok v
    | [] => .err (.TypeMismatch "pair" (.List l))
  | [.DottedList l tail] =>
    match l with
    | v :: _ => .ok v
    | [] => .err (.TypeMismatch "pair" (.DottedList l tail))
  | [v] => .err (.TypeMismatch "pair" v)
  | _ => .err (.NumArgs 1 vals)

/-- primitive.rs `cdr`. -/
def cdr (vals : List Value) : Outcome Value :=
  match vals with
  | [.List l] =>
    match l with
    | _ :: rest => .ok (.List rest)
    | [] => .err (.TypeMismatch "pair" (.List l))
  | [.DottedList l tail] =>
    match l with
    | _ :: rest => .ok (.DottedList rest tail)
    | [] => .err (.TypeMismatch "pair" (.DottedList l tail))
  | [v] => .err (.TypeMismatch "pair" v)
  | _ => .err (.NumArgs 1 vals)

/-- primitive.rs `cons`. -/
def cons (vals : List Value) : Outcome Value :=
  match vals with
  | [v, .List l] => .ok (.List (v :: l))
  | [v, .DottedList l tail] => .ok (.DottedList (v :: l) tail)
  | [v, d] => .ok (.DottedList [v] d)
  | _ => .err (.NumArgs 2 vals)

mutual

/-- primitive.rs `eqv_impl`: structural equality; a pair of dotted lists
is compared with the tail appended as a final element. The fuel argument
makes the non-structural dotted-list recursion total; the source
recursion always terminates, so any sufficiently large fuel agrees with
it. -/
def eqv_impl : Nat → List Value → Outcome Bool
  | 0, _ => .timeout
  | _ + 1, [.Bool a, .Bool b] => .ok (a == b)
  | _ + 1, [.Number a, .Number b] => .ok (a == b)
  | _ + 1, [.String a, .String b] => .ok (a == b)
  | _ + 1, [.Atom a, .Atom b] => .ok (a == b)
  | n + 1, [.DottedList xs x, .DottedList ys y] =>
    eqv_impl n [.List (xs ++ [x]), .List (ys ++ [y])]
  | n + 1, [.List xs, .List ys] =>
    if xs.length ≠ ys.length then .ok false
    else eqvFold n true (xs.zip ys)
  | _ + 1, [_, _] => .ok false
  | _ + 1, vals => .err (.NumArgs 2 vals)

/-- The index loop inside `eqv_impl`'s list case: `result &=
eqv_impl([vals1[i], vals2[i]])?` over all positions. -/
def eqvFold : Nat → Bool → List (Value × Value) → Outcome Bool
  | 0, _, _ => .timeout
  | _ + 1, acc, [] => .ok acc
  | n + 1, acc, (a, b) :: rest =>
    match eqv_impl n [a, b] with
    | .ok r => eqvFold n (acc && r) rest
    | .err e => .err e
    | .panic m => .panic m
    | .timeout => .timeout

end

/-- primitive.rs `eqv`. -/
def eqv (fuel : Nat) (vals : List Value) : Outcome Value :=
  match eqv_impl fuel vals with
  | .ok b => .ok (.Bool b)
  | .err e => .err e
  | .panic m => .panic m
  | .timeout => .timeout

/-- primitive.rs `equal`: try numeric, then string, then boolean coercion
of both arguments; compare within the first kind both coerce to, else
`false`. -/
def equal (vals : List Value) : Outcome Value :=
  match vals with
  | [v1, v2] =>
    match as_number v1, as_number v2 with
    | .ok n1, .ok n2 => .ok (.Bool (n1 == n2))
    | _, _ =>
      match as_string v1, as_string v2 with
      | .ok s1, .ok s2 => .ok (.Bool (s1 == s2))
      | _, _ =>
        match as_bool v1, as_bool v2 with
        | .ok b1, .ok b2 => .ok (.Bool (b1 == b2))
        | _, _ => .ok (.Bool false)
  | _ => .err (.NumArgs 2 vals)

/-- util.rs `intersperse`: space-joined rendering of a list of strings. -/
def intersperseStr : List String → String
  | [] => ""
  | s :: rest => rest.foldl (fun acc t => acc ++ " " ++ t) s

mutual

/-- value.rs `Display for Value` (the eval.rs variant additionally has
enumerated primitive, IO-primitive and port values; those render with a
fixed tag and are never observed by any claim). -/
def Value.display : Value → String
  | .String s => "\"" ++ s ++ "\""
  | .Atom a => a
  | .Number n => toString n
  | .Bool b => if b then "#t" else "#f"
  | .List l => "(" ++ intersperseStr (displayList l) ++ ")"
  | .DottedList l tail =>
    "(" ++ intersperseStr (displayList l) ++ " . " ++ tail.display ++ ")"
  | .PrimitiveFunc _ => "<primitive>"
  | .IOFunc _ => "<io primitive>"
  | .Func params vararg _ _ =>
    "(lambda (" ++ intersperseStr params ++
      (match vararg with
       | some arg => " . " ++ arg
       | none => "") ++ ") ...)"
  | .Port _ => "<port>"

/-- Display each element of a list of values. -/
def displayList : List Value → List String
  | [] => []
  | v :: vs => v.display :: displayList vs

end

/-- Dispatch of the pure primitives in `apply` (eval.rs:12-36). The fuel
is threaded only into `eqv`. -/
def primApply (fuel : Nat) (f : PrimitiveFunc) (args : List Value) : Outcome Value :=
  match f with
  | .Add => numeric_binop i64add args
  | .Sub => numeric_binop i64sub args
  | .Mul => numeric_binop i64mul args
  | .Div => numeric_binop i64div args
  | .Rem => numeric_binop i64rem args
  | .Eq => numeric_bool_binop (fun l r => l == r) args
  | .Lt => numeric_bool_binop (fun l r => decide (l < r)) args
  | .Gt => numeric_bool_binop (fun l r => decide (l > r)) args
  | .Ne => numeric_bool_binop (fun l r => !(l == r)) args
  | .Ge => numeric_bool_binop (fun l r => decide (l ≥ r)) args
  | .Le => numeric_bool_binop (fun l r => decide (l ≤ r)) args
  | .And => bool_bool_binop (fun l r => l && r) args
  | .Or => bool_bool_binop (fun l r => l || r) args
  | .StringEq => string_bool_binop (fun l r => l == r) args
  | .StringLt => string_bool_binop (fun l r => decide (l < r)) args
  | .StringGt => string_bool_binop (fun l r => decide (l > r)) args
  | .StringLe => string_bool_binop (fun l r => decide (l ≤ r)) args
  | .StringGe => string_bool_binop (fun l r => decide (l ≥ r)) args
  | .Car => car args
  | .Cdr => cdr args
  | .Cons => cons args
  | .Eqv => eqv fuel args
  | .Equal => equal args

/-- The argument-binding loop of the closure case of `apply`
(eval.rs:57-63): `args[i]` for `i in 0..params.len()`; `false` marks the
out-of-bounds panic when args run out before params. -/
def bindLoop : Env → List String → List Value → Bool × Env
  | env, [], _ => (true, env)
  | env, _ :: _, [] => (false, env)
  | env, p :: ps, a :: as => bindLoop ((env.define_var p a).2) ps as

/-- The index `last` left behind by the binding loop (eval.rs:57-59): `0`
when there are no fixed parameters, else the index of the last one. The
vararg is bound to `args[last..]`. -/
def varargStart (params : List String) : Nat :=
  params.length - 1

/-- Evaluate a list of argument forms left-to-right, threading the
environment and stopping at the first failure (the
`collect::<Result<Vec<_>>>` at eval.rs:194-197), parameterized by the
one-form evaluator. -/
def evalArgsAux (ev : Env → Value → Outcome Value × Env) :
    Env → List Value → Outcome (List Value) × Env
  | env, [] => (.ok [], env)
  | env, a :: as =>
    match ev env a with
    | (.ok v1, env1) =>
      match evalArgsAux ev env1 as with
      | (.ok vs, env2) => (.ok (v1 :: vs), env2)
      | (.err e, env2) => (.err e, env2)
      | (.panic m, env2) => (.panic m, env2)
      | (.timeout, env2) => (.timeout, env2)
    | (.err e, env1) => (.err e, env1)
    | (.panic m, env1) => (.panic m, env1)
    | (.timeout, env1) => (.timeout, env1)

/-- Evaluate the forms of a closure body in order, returning the last
result; an empty body is `EmptyBody` (eval.rs:67-71), parameterized by
the one-form evaluator. -/
def evalBodyAux (ev : Env → Value → Outcome Value × Env) :
    Env → List Value → Outcome Value × Env
  | env, [] => (.err .EmptyBody, env)
  | env, [b] => ev env b
  | env, b :: bs =>
    match ev env b with
    | (.ok _, env1) => evalBodyAux ev env1 bs
    | r => r

/-- A pending interpreter call: one form to evaluate, or one application
of a callee to already-evaluated arguments. Packaging the mutually
recursive `eval`/`apply` pair of eval.rs as one fuel-indexed function
keeps the recursion structural. -/
inductive Call where
  | ev (env : Env) (v : Value)
  | ap (env : Env) (fv : Value) (args : List Value)

/-- The eval.rs core: `run fuel (.ev env v)` is `eval(env, v)` and
`run fuel (.ap env f args)` is `apply(env, f, args)`, with every internal
recursive call at fuel one lower. The match arms mirror eval.rs in
source order; `(load "path")` and the IO primitives are modelled
abstractly as `Error.Io` (their implementations are absent from the
sources), and the final catch-all of `eval` is the source's `todo!()`
panic. -/
def run : Nat → Call → Outcome Value × Env
  | 0, .ev env _ => (.timeout, env)
  | 0, .ap env _ _ => (.timeout, env)
  | n + 1, .ap env fv args =>
    match fv with
    | .PrimitiveFunc f => (primApply n f args, env)
    | .IOFunc _ => (.err .Io, env)
    | .Func params vararg body closure =>
      if params.length ≠ args.length ∧ vararg = none then
        (.err (.NumArgs params.length args), env)
      else
        let env1 := env.with_closure closure
        match bindLoop env1 params args with
        | (false, env2) => (.panic "index out of bounds", env2)
        | (true, env2) =>
          let env3 :=
            match vararg with
            | some va =>
              ((env2.define_var va (.List (args.drop (varargStart params)))).2)
            | none => env2
          evalBodyAux (fun e w => run n (.ev e w)) env3 body
    | _ => (.err (.NotFunction fv), env)
  | n + 1, .ev env v =>
    match v with
    | .String _ => (.ok v, env)
    | .Number _ => (.ok v, env)
    | .Bool _ => (.ok v, env)
    | .Atom id => (env.get_var id, env)
    | .List vals =>
      match vals with
      | [.Atom "quote", x] => (.ok x, env)
      | [.Atom "if", pred, conseq, alt] =>
        match run n (.ev env pred) with
        | (.ok (.Bool false), env1) => run n (.ev env1 alt)
        | (.ok _, env1) => run n (.ev env1 conseq)
        | r => r
      | [.Atom "set!", .Atom var, form] =>
        match run n (.ev env form) with
        | (.ok v1, env1) => env1.set_var var v1
        | r => r
      | [.Atom "define", .Atom var, form] =>
        match run n (.ev env form) with
        | (.ok v1, env1) =>
          let (v2, env2) := env1.define_var var v1
          (.ok v2, env2)
        | r => r
      | .Atom "define" :: .List nameArgs :: body =>
        match nameArgs with
        | .Atom name :: args =>
          let closure := env.make_closure
          let params := args.map Value.display
          let func := Value.Func params none body closure
          let (v2, env2) := env.define_var name func
          (.ok v2, env2)
        | _ => (.err (.BadSpecialForm "unrecognized special form" v), env)
      | .Atom "define" :: .DottedList nameArgs varargVal :: body =>
        match nameArgs with
        | .Atom name :: args =>
          let closure := env.make_closure
          let params := args.map Value.display
          let func := Value.Func params (some varargVal.display) body closure
          let (v2, env2) := env.define_var name func
          (.ok v2, env2)
        | _ => (.err (.BadSpecialForm "unrecognized special form" v), env)
      | .Atom "lambda" :: .List ps :: body =>
        (.ok (.Func (ps.map Value.display) none body env.make_closure), env)
      | .Atom "lambda" :: .DottedList ps varargVal :: body =>
        (.ok (.Func (ps.map Value.display) (some varargVal.display) body
          env.make_closure), env)
      | .Atom "lambda" :: .Atom varargName :: body =>
        (.ok (.Func [] (some varargName) body env.make_closure), env)
      | [.Atom "load", .String _] => (.err .Io, env)
      | f :: as =>
        match run n (.ev env f) with
        | (.ok fv, env1) =>
          match evalArgsAux (fun e w => run n (.ev e w)) env1 as with
          | (.ok avs, env2) =>
            let closure := env2.make_closure
            match run n (.ap env2 fv avs) with
            | (.ok v1, env3) => (.ok v1, env3.load_closure closure)
            | (.err e, env3) => (.err e, env3.load_closure closure)
            | (.panic m, env3) => (.panic m, env3)
            | (.timeout, env3) => (.timeout, env3)
          | (.err e, env2) => (.err e, env2)
          | (.panic m, env2) => (.panic m, env2)
          | (.timeout, env2) => (.timeout, env2)
        | r => r
      | [] => (.err (.BadSpecialForm "unrecognized special form" v), env)
    | _ => (.panic "not yet implemented", env)

/-- eval.rs `eval`. -/
def eval (fuel : Nat) (env : Env) (v : Value) : Outcome Value × Env :=
  run fuel (.ev env v)

/-- eval.rs `apply`. -/
def apply (fuel : Nat) (env : Env) (fv : Value) (args : List Value) :
    Outcome Value × Env :=
  run fuel (.ap env fv args)

/-- Left-to-right evaluation of argument forms at a given fuel. -/
def evalArgs (fuel : Nat) : Env → List Value → Outcome (List Value) × Env :=
  evalArgsAux (fun env v => run fuel (.ev env v))

/-- In-order evaluation of body forms at a given fuel. -/
def evalBody (fuel : Nat) : Env → List Value → Outcome Value × Env :=
  evalBodyAux (fun env v => run fuel (.ev env v))

/-- The forms recognized by a dedicated arm of `eval`'s match before the
generic-application arm, exactly as guarded in eval.rs:83-191. -/
def isSpecialForm : List Value → Bool
  | [.Atom "quote", _] => true
  | [.Atom "if", _, _, _] => true
  | [.Atom "set!", .Atom _, _] => true
  | [.Atom "define", .Atom _, _] => true
  | .Atom "define" :: .List _ :: _ => true
  | .Atom "define" :: .DottedList _ _ :: _ => true
  | .Atom "lambda" :: .List _ :: _ => true
  | .Atom "lambda" :: .DottedList _ _ :: _ => true
  | .Atom "lambda" :: .Atom _ :: _ => true
  | [.Atom "load", .String _] => true
  | _ => false

/-- The initial environment (env.rs `Env::primitive_bindings`), with each
name bound to its enumerated primitive in the source's definition order. -/
def primitiveList : List (String × Value) :=
  [("+", .PrimitiveFunc .Add), ("-", .PrimitiveFunc .Sub),
   ("*", .PrimitiveFunc .Mul), ("/", .PrimitiveFunc .Div),
   ("mod", .PrimitiveFunc .Rem), ("quotient", .PrimitiveFunc .Div),
   ("remainder", .PrimitiveFunc .Rem),
   ("=", .PrimitiveFunc .Eq), ("<", .PrimitiveFunc .Lt),
   (">", .PrimitiveFunc .Gt), ("/=", .PrimitiveFunc .Ne),
   (">=", .PrimitiveFunc .Ge), ("<=", .PrimitiveFunc .Le),
   ("&&", .PrimitiveFunc .And), ("||", .PrimitiveFunc .Or),
   ("string=?", .PrimitiveFunc .StringEq), ("string<?", .PrimitiveFunc .StringLt),
   ("string>?", .PrimitiveFunc .StringGt), ("string<=?", .PrimitiveFunc .StringLe),
   ("string>=?", .PrimitiveFunc .StringGe),
   ("car", .PrimitiveFunc .Car), ("cdr", .PrimitiveFunc .Cdr),
   ("cons", .PrimitiveFunc .Cons), ("eq?", .PrimitiveFunc .Eqv),
   ("eqv?", .PrimitiveFunc .Eqv), ("equal?", .PrimitiveFunc .Equal),
   ("apply", .IOFunc .Apply), ("open-input-file", .IOFunc .MakeReadPort),
   ("open-output-file", .IOFunc .MakeWritePort),
   ("close-input-port", .IOFunc .ClosePort),
   ("close-output-port", .IOFunc .ClosePort),
   ("read", .IOFunc .Read), ("write", .IOFunc .Write),
   ("read-contents", .IOFunc .ReadContents), ("read-all", .IOFunc .ReadAll)]

/-- env.rs `Env::primitive_bindings`. -/
def Env.primitive_bindings : Env :=
  primitiveList.foldl (fun env p => (env.define_var p.1 p.2).2)
    { vals := [], vars := [] }

/-!
Concrete session forms used by several claims. Each is the parse tree of
the source text quoted in the claim, written as a `Value` literal (the
parser maps `(a ... z)` to `Value.List` and `(a . z)` to
`Value.DottedList`, see parser.rs `parse_any_list`).
-/

/-- Parse tree of `(define (counter inc) (lambda (x) (set! inc (+ x inc)) inc))`. -/
def counterForm : Value :=
  .List [.Atom "define", .List [.Atom "counter", .Atom "inc"],
    .List [.Atom "lambda", .List [.Atom "x"],
      .List [.Atom "set!", .Atom "inc", .List [.Atom "+", .Atom "x", .Atom "inc"]],
      .Atom "inc"]]

/-- Parse tree of `(define my-count (counter 5))`. -/
def myCountForm : Value :=
  .List [.Atom "define", .Atom "my-count", .List [.Atom "counter", .Number 5]]

/-- Environment after `(define (counter inc) ...)` in the initial
environment. -/
def counterEnv1 : Env := (eval 30 Env.primitive_bindings counterForm).2

/-- Environment after the subsequent `(define my-count (counter 5))`. -/
def counterEnv2 : Env := (eval 30 counterEnv1 myCountForm).2

/-- Environment after the subsequent `(my-count 3)`. -/
def counterEnv3 : Env := (eval 30 counterEnv2 (.List [.Atom "my-count", .Number 3])).2

/-- Environment after the subsequent `(my-count 6)`. -/
def counterEnv4 : Env := (eval 30 counterEnv3 (.List [.Atom "my-count", .Number 6])).2

/-- Parse tree of `(define (f x . y) y)`: one fixed parameter and a
vararg, whose body returns the vararg. -/
def varargForm : Value :=
  .List [.Atom "define", .DottedList [.Atom "f", .Atom "x"] (.Atom "y"), .Atom "y"]

/-- Environment after `(define (f x . y) y)` in the initial environment. -/
def varargEnv : Env := (eval 30 Env.primitive_bindings varargForm).2

/-- Parse tree of `(define (f x y) (+ x y))`. -/
def arityForm : Value :=
  .List [.Atom "define", .List [.Atom "f", .Atom "x", .Atom "y"],
    .List [.Atom "+", .Atom "x", .Atom "y"]]

/-- Environment after `(define (f x y) (+ x y))` in the initial
environment. -/
def arityEnv : Env := (eval 30 Env.primitive_bindings arityForm).2

/-!
Helper lemmas about `numeric_binop`.
-/

/-- When every argument coerces and the fold of the operator is defined,
`numeric_binop` returns the folded number. -/
theorem numeric_binop_fold_ok {f : Int → Int → Option Int} :
    ∀ (args : List Value) (n : Int) (ns : List Int) (r : Int),
      as_number_list args = .ok (n :: ns) → foldNums f n ns = some r →
      2 ≤ args.length → numeric_binop f args = .ok (.Number r)
  | _ :: _ :: _, n, ns, r, h1, h2, _ => by
    simp [numeric_binop, h1, h2]
  | [], _, _, _, _, _, h => by simp at h
  | [v], _, _, _, _, _, h => by simp at h

/-- When coercion of the argument list fails, `numeric_binop` returns its
error. -/
theorem numeric_binop_coerce_err {f : Int → Int → Option Int} :
    ∀ (args : List Value) (e : Error), 2 ≤ args.length →
      as_number_list args = .error e → numeric_binop f args = .err e
  | _ :: _ :: _, e, _, h => by simp [numeric_binop, h]
  | [], _, h, _ => by simp at h
  | [v], _, h, _ => by simp at h

/-- Coercing a list fails with the error of its first non-coercible
element. -/
theorem as_number_list_first_err :
    ∀ (pre : List Value) (v : Value) (post : List Value) (e : Error),
      (∀ u ∈ pre, ∃ k, as_number u = .ok k) → as_number v = .error e →
      as_number_list (pre ++ v :: post) = .error e
  | [], v, post, e, _, hv => by simp [as_number_list, hv]
  | u :: pre, v, post, e, hpre, hv => by
    obtain ⟨k, hk⟩ := hpre u (by simp)
    have ih := as_number_list_first_err pre v post e
      (fun w hw => hpre w (by simp [hw])) hv
    simp [as_number_list, hk, ih]

/-- The only error `as_number` produces is a "number" type mismatch
carrying the offending value. -/
theorem as_number_err_shape (v : Value) (e : Error)
    (h : as_number v = .error e) : e = .TypeMismatch "number" v := by
  cases v <;> simp [as_number] at h <;> try (exact h.symm)
  next s =>
    cases hp : parseI64 s <;> simp [hp] at h
    exact h.symm

/-!
The claims.
-/

/-- C1. The claim states that a vararg closure binds its vararg name to
exactly the trailing arguments `args[params.len()..]`. The code instead
binds `args[last..]` where `last` is the index of the last fixed
parameter (eval.rs:57-65), so with one fixed parameter the vararg list
wrongly starts at the last fixed argument: after `(define (f x . y) y)`,
`(f 1 2)` returns `(1 2)` — containing the argument already bound to `x`
— where the claim (and Scheme vararg semantics) require `(2)`. -/
theorem c1_vararg_includes_last_fixed_arg :
    (eval 30 varargEnv (.List [.Atom "f", .Number 1, .Number 2])).1
      = .ok (.List [.Number 1, .Number 2]) ∧
    (eval 30 varargEnv (.List [.Atom "f", .Number 1, .Number 2])).1
      ≠ .ok (.List [.Number 2]) := by
  constructor
  · rfl
  · intro h
    rw [show (eval 30 varargEnv (.List [.Atom "f", .Number 1, .Number 2])).1
      = .ok (.List [.Number 1, .Number 2]) from rfl] at h
    simp at h

/-- C2. The claim states evaluation always returns a value or an error of
the closed taxonomy and never terminates the process, in particular for
dotted-list forms, division by zero, and vararg closures applied to fewer
arguments than fixed parameters. All three named inputs make the code
panic instead: a dotted-list form reaches the `todo!()` at eval.rs:208,
`(/ 1 0)` panics inside the Rust `/` operator, and after
`(define (f x . y) y)` the call `(f)` indexes `args[0]` out of bounds at
eval.rs:61. -/
theorem c2_eval_panics_on_three_claimed_total_inputs :
    (eval 10 Env.primitive_bindings (.DottedList [.Number 1] (.Number 2))).1
      = .panic "not yet implemented" ∧
    (eval 10 Env.primitive_bindings (.List [.Atom "/", .Number 1, .Number 0])).1
      = .panic "attempt to divide by zero" ∧
    (eval 30 varargEnv (.List [.Atom "f"])).1 = .panic "index out of bounds" :=
  ⟨rfl, rfl, rfl⟩

/-- C3. Evaluating `(define (counter inc) (lambda (x) (set! inc (+ x inc))
inc))` then `(define my-count (counter 5))` against one persistent
environment makes the successive calls `(my-count 3)`, `(my-count 6)`,
`(my-count 5)` return 8, 14 and 19: the closure shares the mutable slot
of `inc` with its defining call rather than copying its value. -/
theorem c3_counter_shared_slot_capture :
    (eval 30 counterEnv2 (.List [.Atom "my-count", .Number 3])).1 = .ok (.Number 8) ∧
    (eval 30 counterEnv3 (.List [.Atom "my-count", .Number 6])).1 = .ok (.Number 14) ∧
    (eval 30 counterEnv4 (.List [.Atom "my-count", .Number 5])).1 = .ok (.Number 19) :=
  ⟨rfl, rfl, rfl⟩

/-- C4. For a generic application form `(F A1 A2 ...)` (one recognized by
no special-form arm): `F` is evaluated first, then the arguments
left-to-right threading the environment, the caller's name-to-slot
mapping is snapshotted, `apply` is called, and — whether `apply` returned
a value or an error — the final environment carries exactly the
snapshotted mapping while keeping `apply`'s slot store, so slot mutations
made inside the callee stay visible. -/
theorem c4_generic_application_restores_mapping_only
    (n : Nat) (env env1 env2 env3 : Env) (f : Value) (as : List Value)
    (fv : Value) (avs : List Value) (r : Outcome Value)
    (hs : isSpecialForm (f :: as) = false)
    (hf : eval n env f = (.ok fv, env1))
    (ha : evalArgs n env1 as = (.ok avs, env2))
    (hap : apply n env2 fv avs = (r, env3))
    (hr : (∃ w, r = .ok w) ∨ (∃ e, r = .err e)) :
    eval (n + 1) env (.List (f :: as)) = (r, { env3 with vars := env2.vars }) := by
  simp only [eval] at hf
  simp only [evalArgs] at ha
  simp only [apply] at hap
  simp only [eval, run]
  split
  all_goals rename_i heq
  all_goals try (rw [heq] at hs; simp [isSpecialForm] at hs)
  · injection heq with h1 h2
    subst h1; subst h2
    simp only [hf, ha, hap]
    rcases hr with ⟨w, rfl⟩ | ⟨e, rfl⟩ <;> simp [Env.load_closure, Env.make_closure]
  · exact absurd heq (by simp)

/-- Witness for C4 at the concrete application `(+ 1 2)` in the initial
environment. -/
theorem c4_witness :
    eval 4 Env.primitive_bindings (.List [.Atom "+", .Number 1, .Number 2])
      = (.ok (.Number 3), Env.primitive_bindings) :=
  c4_generic_application_restores_mapping_only 3 Env.primitive_bindings
    Env.primitive_bindings Env.primitive_bindings Env.primitive_bindings
    (.Atom "+") [.Number 1, .Number 2] (.PrimitiveFunc .Add)
    [.Number 1, .Number 2] (.ok (.Number 3)) rfl rfl rfl rfl (Or.inl ⟨_, rfl⟩)

/-- C5. Applying a closure without vararg to an argument list of the
wrong length returns `NumArgs(params.len(), args)` and leaves the
environment untouched; in the claimed session after
`(define (f x y) (+ x y))`, `(f 1 2 3)` yields `NumArgs(2, [1,2,3])` and
`(f 1)` yields `NumArgs(2, [1])`. -/
theorem c5_closure_arity_mismatch :
    (∀ (n : Nat) (env : Env) (params : List String) (body : List Value)
       (closure : VarMap) (args : List Value), params.length ≠ args.length →
       apply (n + 1) env (.Func params none body closure) args
         = (.err (.NumArgs params.length args), env)) ∧
    (eval 30 arityEnv (.List [.Atom "f", .Number 1, .Number 2, .Number 3])).1
      = .err (.NumArgs 2 [.Number 1, .Number 2, .Number 3]) ∧
    (eval 30 arityEnv (.List [.Atom "f", .Number 1])).1
      = .err (.NumArgs 2 [.Number 1]) := by
  refine ⟨?_, rfl, rfl⟩
  intro n env params body closure args h
  simp [apply, run, h]

/-- Witness for C5's general part: a two-parameter closure applied to one
argument. -/
theorem c5_witness :
    apply 1 Env.primitive_bindings (.Func ["x", "y"] none [.Atom "x"] []) [.Number 1]
      = (.err (.NumArgs 2 [.Number 1]), Env.primitive_bindings) :=
  c5_closure_arity_mismatch.1 0 Env.primitive_bindings ["x", "y"] [.Atom "x"] []
    [.Number 1] (by decide)

/-- C6 counterexample. The claim as stated promises that two-or-more
coercible arguments always produce the fold of the integer operator; at
`(/ 1 0)` both arguments are numbers yet the code panics in the Rust `/`
operator and returns nothing. -/
theorem c6_div_zero_counterexample :
    numeric_binop i64div [.Number 1, .Number 0] = .panic "attempt to divide by zero" ∧
    numeric_binop i64div [.Number 1, .Number 0] ≠ .ok (.Number (Int.tdiv 1 0)) := by
  constructor
  · rfl
  · intro h
    rw [show numeric_binop i64div [Value.Number 1, Value.Number 0]
      = .panic "attempt to divide by zero" from rfl] at h
    exact Outcome.noConfusion h

/-- C6 amended. For every numeric fold primitive (`+ - * / mod quotient
remainder`, all dispatching to `numeric_binop`): zero or one arguments
yield `NumArgs(2, args)`; two or more arguments that all coerce yield the
left-to-right fold of the operator, provided every division/modulo step
is defined (divisor nonzero, and not `i64::MIN` divided by `-1` —
otherwise the process panics, see C2); and a first non-coercible argument
yields `TypeMismatch("number", that value)`. -/
theorem c6_numeric_fold_amended :
    (∀ (f : Int → Int → Option Int),
       numeric_binop f [] = .err (.NumArgs 2 []) ∧
       ∀ v, numeric_binop f [v] = .err (.NumArgs 2 [v])) ∧
    (∀ (f : Int → Int → Option Int) (args : List Value) (n : Int)
       (ns : List Int) (r : Int),
       as_number_list args = .ok (n :: ns) → foldNums f n ns = some r →
       2 ≤ args.length → numeric_binop f args = .ok (.Number r)) ∧
    (∀ (f : Int → Int → Option Int) (pre : List Value) (v : Value)
       (post : List Value) (e : Error),
       2 ≤ (pre ++ v :: post).length →
       (∀ u ∈ pre, ∃ k, as_number u = .ok k) → as_number v = .error e →
       numeric_binop f (pre ++ v :: post) = .err (.TypeMismatch "number" v)) ∧
    (∀ (fuel : Nat) (args : List Value),
       primApply fuel .Add args = numeric_binop i64add args ∧
       primApply fuel .Sub args = numeric_binop i64sub args ∧
       primApply fuel .Mul args = numeric_binop i64mul args ∧
       primApply fuel .Div args = numeric_binop i64div args ∧
       primApply fuel .Rem args = numeric_binop i64rem args) := by
  refine ⟨fun f => ⟨rfl, fun v => rfl⟩, fun f => numeric_binop_fold_ok,
    ?_, fun fuel args => ⟨rfl, rfl, rfl, rfl, rfl⟩⟩
  intro f pre v post e hlen hpre hv
  have he := as_number_err_shape v e hv
  subst he
  exact numeric_binop_coerce_err _ _ hlen (as_number_list_first_err pre v post _ hpre hv)

/-- Witness for C6 at `(+ 2 3)`. -/
theorem c6_witness :
    numeric_binop i64add [.Number 2, .Number 3] = .ok (.Number 5) :=
  c6_numeric_fold_amended.2.1 i64add [.Number 2, .Number 3] 2 [3] 5 rfl rfl (by decide)

/-- C7. Looking up an unbound name yields
`UnboundVariable("Getting an unbound variable", name)`; evaluating
`(set! name X)` when `name` is unbound (after `X`'s own evaluation)
returns an `UnboundVariable` error and leaves the environment exactly as
`X` left it — the name stays undefined; a successful `set!` overwrites
the slot contents in place, keeps the mapping unchanged, and returns the
assigned value. -/
theorem c7_unbound_variable_semantics :
    (∀ (env : Env) (x : String), env.vars.get x = none →
       env.get_var x = .err (.UnboundVar "Getting an unbound variable" x)) ∧
    (∀ (n : Nat) (env env1 : Env) (var : String) (form v1 : Value),
       eval n env form = (.ok v1, env1) → env1.vars.get var = none →
       eval (n + 1) env (.List [.Atom "set!", .Atom var, form])
         = (.err (.UnboundVar "Setting an unbound var" var), env1)) ∧
    (∀ (n : Nat) (env env1 : Env) (var : String) (form v1 : Value) (i : Nat),
       eval n env form = (.ok v1, env1) → env1.vars.get var = some i →
       i < env1.vals.length →
       eval (n + 1) env (.List [.Atom "set!", .Atom var, form])
         = (.ok v1, { env1 with vals := env1.vals.set i v1 })) := by
  refine ⟨?_, ?_, ?_⟩
  · intro env x h
    simp [Env.get_var, h]
  · intro n env env1 var form v1 h1 h2
    simp only [eval] at h1
    simp [eval, run, h1, Env.set_var, h2]
  · intro n env env1 var form v1 i h1 h2 h3
    simp only [eval] at h1
    simp [eval, run, h1, Env.set_var, h2, h3]

/-- Witness for C7: an unbound lookup, an unbound `set!`, and a
successful `set!` of the first slot, all in the initial environment. -/
theorem c7_witness :
    Env.primitive_bindings.get_var "nope"
      = .err (.UnboundVar "Getting an unbound variable" "nope") ∧
    eval 2 Env.primitive_bindings (.List [.Atom "set!", .Atom "nope", .Number 7])
      = (.err (.UnboundVar "Setting an unbound var" "nope"), Env.primitive_bindings) ∧
    eval 2 Env.primitive_bindings (.List [.Atom "set!", .Atom "+", .Number 7])
      = (.ok (.Number 7),
         { Env.primitive_bindings with
             vals := Env.primitive_bindings.vals.set 0 (.Number 7) }) :=
  ⟨c7_unbound_variable_semantics.1 Env.primitive_bindings "nope" rfl,
   c7_unbound_variable_semantics.2.1 1 Env.primitive_bindings Env.primitive_bindings
     "nope" (.Number 7) (.Number 7) rfl rfl,
   c7_unbound_variable_semantics.2.2 1 Env.primitive_bindings Env.primitive_bindings
     "+" (.Number 7) (.Number 7) 0 rfl rfl (by decide)⟩

/-- C8. `car` and `cdr` on a one-argument list holding an empty `List`
(or a `DottedList` with no leading items) return
`TypeMismatch("pair", that value)`; on a non-empty `List` or `DottedList`
`car` returns the first element and `cdr` the remainder, preserving the
list-versus-dotted kind (and the dotted tail). -/
theorem c8_car_cdr_pair_semantics :
    (car [.List []] = .err (.TypeMismatch "pair" (.List []))) ∧
    (∀ t : Value, car [.DottedList [] t] = .err (.TypeMismatch "pair" (.DottedList [] t))) ∧
    (cdr [.List []] = .err (.TypeMismatch "pair" (.List []))) ∧
    (∀ t : Value, cdr [.DottedList [] t] = .err (.TypeMismatch "pair" (.DottedList [] t))) ∧
    (∀ (a : Value) (as : List Value), car [.List (a :: as)] = .ok a) ∧
    (∀ (a t : Value) (as : List Value), car [.DottedList (a :: as) t] = .ok a) ∧
    (∀ (a : Value) (as : List Value), cdr [.List (a :: as)] = .ok (.List as)) ∧
    (∀ (a t : Value) (as : List Value),
       cdr [.DottedList (a :: as) t] = .ok (.DottedList as t)) :=
  ⟨rfl, fun _ => rfl, rfl, fun _ => rfl, fun _ _ => rfl, fun _ _ _ => rfl,
   fun _ _ => rfl, fun _ _ _ => rfl⟩

/-- C9. Evaluating `(quote X)` returns `X` itself, structurally
unchanged, and returns the environment unchanged, for every value `X` and
every environment. -/
theorem c9_quote_identity (n : Nat) (env : Env) (x : Value) :
    eval (n + 1) env (.List [.Atom "quote", x]) = (.ok x, env) :=
  rfl

def closBounded (n : Nat) (c : VarMap) : Bool :=
  c.all fun p => decide (p.2 < n)

mutual
def valWF (n : Nat) : Value → Bool
  | .Atom _ => true
  | .List l => valsWF n l
  | .DottedList l t => valsWF n l && valWF n t
  | .Number _ => true
  | .String _ => true
  | .Bool _ => true
  | .PrimitiveFunc _ => true
  | .IOFunc _ => true
  | .Func _ _ body c => valsWF n body && closBounded n c
  | .Port _ => true
def valsWF (n : Nat) : List Value → Bool
  | [] => true
  | v :: vs => valWF n v && valsWF n vs
end

def EnvWF (env : Env) : Prop :=
  closBounded env.vals.length env.vars = true ∧
  valsWF env.vals.length env.vals = true

theorem closBounded_iff {n : Nat} {c : VarMap} :
    closBounded n c = true ↔ ∀ p ∈ c, p.2 < n := by
  simp [closBounded]

theorem closBounded_mono {n m : Nat} {c : VarMap} (h : n ≤ m)
    (hc : closBounded n c = true) : closBounded m c = true := by
  rw [closBounded_iff] at hc ⊢
  exact fun p hp => lt_of_lt_of_le (hc p hp) h

mutual
theorem valWF_mono {n m : Nat} (h : n ≤ m) :
    ∀ (v : Value), valWF n v = true → valWF m v = true
  | .Atom _, hv => hv
  | .List l, hv => valsWF_mono h l hv
  | .DottedList l t, hv => by
    simp only [valWF, Bool.and_eq_true] at hv ⊢
    exact ⟨valsWF_mono h l hv.1, valWF_mono h t hv.2⟩
  | .Number _, hv => hv
  | .String _, hv => hv
  | .Bool _, hv => hv
  | .PrimitiveFunc _, hv => hv
  | .IOFunc _, hv => hv
  | .Func _ _ body c, hv => by
    simp only [valWF, Bool.and_eq_true] at hv ⊢
    exact ⟨valsWF_mono h body hv.1, closBounded_mono h hv.2⟩
  | .Port _, hv => hv
theorem valsWF_mono {n m : Nat} (h : n ≤ m) :
    ∀ (l : List Value), valsWF n l = true → valsWF m l = true
  | [], hv => hv
  | v :: vs, hv => by
    simp only [valsWF, Bool.and_eq_true] at hv ⊢
    exact ⟨valWF_mono h v hv.1, valsWF_mono h vs hv.2⟩
end

theorem valsWF_iff {n : Nat} :
    ∀ {l : List Value}, valsWF n l = true ↔ ∀ v ∈ l, valWF n v = true
  | [] => by simp [valsWF]
  | v :: vs => by
    simp [valsWF, Bool.and_eq_true, valsWF_iff (l := vs)]

theorem VarMap.get_lt {c : VarMap} {n : Nat} {x : String} {i : Nat}
    (hc : closBounded n c = true) (h : VarMap.get c x = some i) : i < n := by
  unfold VarMap.get at h
  cases hf : c.find? (fun p => p.1 == x) with
  | none => rw [hf] at h; simp at h
  | some p =>
    rw [hf] at h
    simp at h
    rw [closBounded_iff] at hc
    exact h ▸ hc p (List.mem_of_find?_eq_some hf)

theorem closBounded_insert {n : Nat} {m : VarMap} {k : String} {i : Nat}
    (hi : i < n) (hm : closBounded n m = true) :
    closBounded n (VarMap.insert m k i) = true := by
  rw [closBounded_iff] at hm ⊢
  intro p hp
  simp only [VarMap.insert, List.mem_cons] at hp
  rcases hp with rfl | hp
  · exact hi
  · exact hm p (List.mem_of_mem_filter hp)

theorem closBounded_foldl_insert {n : Nat} :
    ∀ (c m : VarMap), closBounded n c = true → closBounded n m = true →
      closBounded n (c.foldl (fun m p => VarMap.insert m p.1 p.2) m) = true
  | [], m, _, hm => hm
  | p :: c, m, hc, hm => by
    rw [closBounded_iff] at hc
    refine closBounded_foldl_insert c _ ?_ ?_
    · rw [closBounded_iff]
      exact fun q hq => hc q (by simp [hq])
    · exact closBounded_insert (hc p (by simp)) hm

theorem get_var_wf {env : Env} (h : EnvWF env) (x : String) :
    (∀ m, env.get_var x ≠ .panic m) ∧
    ∀ w, env.get_var x = .ok w → valWF env.vals.length w = true := by
  obtain ⟨hc, hv⟩ := h
  cases hm : VarMap.get env.vars x with
  | none => simp [Env.get_var, hm]
  | some i =>
    have hi : i < env.vals.length := VarMap.get_lt hc hm
    cases hg : env.vals[i]? with
    | none =>
      exact absurd (List.getElem?_eq_none_iff.mp hg) (by omega)
    | some v =>
      have hmem : v ∈ env.vals := List.getElem?_mem hg
      constructor
      · intro m
        simp [Env.get_var, hm, hg]
      · intro w hw
        simp [Env.get_var, hm, hg] at hw
        exact hw ▸ valsWF_iff.mp hv v hmem

theorem set_var_wf {env : Env} {x : String} {w : Value} (h : EnvWF env)
    (hw : valWF env.vals.length w = true) :
    EnvWF (env.set_var x w).2 ∧
    (env.set_var x w).2.vals.length = env.vals.length ∧
    (∀ m, (env.set_var x w).1 ≠ .panic m) ∧
    ∀ w2, (env.set_var x w).1 = .ok w2 → w2 = w := by
  obtain ⟨hc, hv⟩ := h
  cases hm : VarMap.get env.vars x with
  | none =>
    simp only [Env.set_var, hm]
    exact ⟨⟨hc, hv⟩, by simp, fun m => by simp, fun w2 hw2 => by simp at hw2⟩
  | some i =>
    have hi : i < env.vals.length := VarMap.get_lt hc hm
    simp only [Env.set_var, hm, if_pos hi]
    refine ⟨⟨?_, ?_⟩, by simp, fun m => by simp,
      fun w2 hw2 => by simp at hw2; exact hw2.symm⟩
    · simpa using hc
    · simp only [List.length_set]
      rw [valsWF_iff] at hv ⊢
      intro v hvmem
      rcases List.mem_or_eq_of_mem_set hvmem with hmem | rfl
      · exact hv v hmem
      · exact hw

theorem define_var_wf {env : Env} {x : String} {w : Value} (h : EnvWF env)
    (hw : valWF env.vals.length w = true) :
    EnvWF (env.define_var x w).2 ∧
    (env.define_var x w).2.vals.length = env.vals.length + 1 ∧
    (env.define_var x w).1 = w := by
  obtain ⟨hc, hv⟩ := h
  refine ⟨⟨?_, ?_⟩, by simp [Env.define_var], rfl⟩
  · simp only [Env.define_var, List.length_append, List.length_cons,
      List.length_nil]
    exact closBounded_insert (by omega) (closBounded_mono (by omega) hc)
  · simp only [Env.define_var, List.length_append, List.length_cons,
      List.length_nil]
    rw [valsWF_iff]
    intro v hvmem
    rcases List.mem_append.mp hvmem with hmem | hmem
    · exact valWF_mono (by omega) v (valsWF_iff.mp hv v hmem)
    · simp at hmem
      exact hmem ▸ valWF_mono (by omega) w hw

theorem with_closure_wf {env : Env} {c : VarMap} (h : EnvWF env)
    (hc : closBounded env.vals.length c = true) :
    EnvWF (env.with_closure c) ∧ (env.with_closure c).vals = env.vals :=
  ⟨⟨closBounded_foldl_insert c env.vars hc h.1, h.2⟩, rfl⟩

theorem load_closure_wf {env : Env} {c : VarMap} (h : EnvWF env)
    (hc : closBounded env.vals.length c = true) :
    EnvWF (env.load_closure c) ∧ (env.load_closure c).vals = env.vals :=
  ⟨⟨hc, h.2⟩, rfl⟩

theorem bindLoop_wf :
    ∀ (params : List String) (args : List Value) (env : Env),
      EnvWF env → valsWF env.vals.length args = true →
      EnvWF (bindLoop env params args).2 ∧
      env.vals.length ≤ (bindLoop env params args).2.vals.length
  | [], args, env, h, _ => ⟨h, le_refl _⟩
  | _ :: _, [], env, h, _ => ⟨h, le_refl _⟩
  | p :: ps, a :: as, env, h, hargs => by
    simp only [valsWF, Bool.and_eq_true] at hargs
    obtain ⟨h1, h2, _⟩ := define_var_wf h hargs.1
    have ih := bindLoop_wf ps as (env.define_var p a).2 h1
      (valsWF_mono (by omega) as hargs.2)
    simp only [bindLoop]
    exact ⟨ih.1, by omega⟩



/-- The preservation property of a one-form evaluator: from a well-formed
environment and form, the result environment is well-formed, the slot
store never shrinks, and an ok result value is well-formed at the final
store size. -/
def EvPres (ev : Env → Value → Outcome Value × Env) : Prop :=
  ∀ (env : Env) (v : Value) (r : Outcome Value) (env' : Env),
    ev env v = (r, env') → EnvWF env → valWF env.vals.length v = true →
    EnvWF env' ∧ env.vals.length ≤ env'.vals.length ∧
    ∀ w, r = .ok w → valWF env'.vals.length w = true

theorem evalArgsAux_wf {ev : Env → Value → Outcome Value × Env} (hev : EvPres ev) :
    ∀ (vs : List Value) (env : Env) (r : Outcome (List Value)) (env' : Env),
      evalArgsAux ev env vs = (r, env') →
      EnvWF env → valsWF env.vals.length vs = true →
      EnvWF env' ∧ env.vals.length ≤ env'.vals.length ∧
      ∀ ws, r = .ok ws → valsWF env'.vals.length ws = true
  | [], env, r, env', hrun, h, _ => by
    simp only [evalArgsAux] at hrun
    injection hrun with h1 h2
    subst h1; subst h2
    refine ⟨h, le_refl _, fun ws hws => ?_⟩
    injection hws with h3
    subst h3
    rfl
  | a :: as, env, r, env', hrun, h, hvs => by
    simp only [valsWF, Bool.and_eq_true] at hvs
    simp only [evalArgsAux] at hrun
    cases hE : ev env a with
    | mk r1 env1 =>
      rw [hE] at hrun
      obtain ⟨he1, hl1, ho1⟩ := hev env a r1 env1 hE h hvs.1
      cases r1 with
      | ok v1 =>
        simp only at hrun
        cases hA : evalArgsAux ev env1 as with
        | mk r2 env2 =>
          rw [hA] at hrun
          obtain ⟨he2, hl2, ho2⟩ :=
            evalArgsAux_wf hev as env1 r2 env2 hA he1 (valsWF_mono hl1 as hvs.2)
          cases r2 with
          | ok ws =>
            simp only at hrun
            injection hrun with h1 h2
            subst h1; subst h2
            refine ⟨he2, by omega, fun ws2 hws2 => ?_⟩
            injection hws2 with h3
            subst h3
            simp only [valsWF, Bool.and_eq_true]
            exact ⟨valWF_mono hl2 v1 (ho1 v1 rfl), ho2 ws rfl⟩
          | err e =>
            simp only at hrun
            injection hrun with h1 h2
            subst h1; subst h2
            exact ⟨he2, by omega, fun ws2 hws2 => by simp at hws2⟩
          | panic m =>
            simp only at hrun
            injection hrun with h1 h2
            subst h1; subst h2
            exact ⟨he2, by omega, fun ws2 hws2 => by simp at hws2⟩
          | timeout =>
            simp only at hrun
            injection hrun with h1 h2
            subst h1; subst h2
            exact ⟨he2, by omega, fun ws2 hws2 => by simp at hws2⟩
      | err e =>
        simp only at hrun
        injection hrun with h1 h2
        subst h1; subst h2
        exact ⟨he1, hl1, fun ws hws => by simp at hws⟩
      | panic m =>
        simp only at hrun
        injection hrun with h1 h2
        subst h1; subst h2
        exact ⟨he1, hl1, fun ws hws => by simp at hws⟩
      | timeout =>
        simp only at hrun
        injection hrun with h1 h2
        subst h1; subst h2
        exact ⟨he1, hl1, fun ws hws => by simp at hws⟩


theorem evalBodyAux_wf {ev : Env → Value → Outcome Value × Env} (hev : EvPres ev) :
    ∀ (body : List Value) (env : Env) (r : Outcome Value) (env' : Env),
      evalBodyAux ev env body = (r, env') →
      EnvWF env → valsWF env.vals.length body = true →
      EnvWF env' ∧ env.vals.length ≤ env'.vals.length ∧
      ∀ w, r = .ok w → valWF env'.vals.length w = true
  | [], env, r, env', hrun, h, _ => by
    simp only [evalBodyAux] at hrun
    injection hrun with h1 h2
    subst h1; subst h2
    exact ⟨h, le_refl _, fun w hw => by simp at hw⟩
  | [b], env, r, env', hrun, h, hb => by
    simp only [valsWF, Bool.and_true] at hb
    simp only [evalBodyAux] at hrun
    exact hev env b r env' hrun h hb
  | b :: b2 :: bs, env, r, env', hrun, h, hb => by
    simp only [valsWF, Bool.and_eq_true] at hb
    simp only [evalBodyAux] at hrun
    cases hE : ev env b with
    | mk r1 env1 =>
      rw [hE] at hrun
      obtain ⟨he1, hl1, _⟩ := hev env b r1 env1 hE h hb.1
      cases r1 with
      | ok v1 =>
        simp only at hrun
        have hrest : valsWF env1.vals.length (b2 :: bs) = true := by
          simp only [valsWF, Bool.and_eq_true]
          exact ⟨valWF_mono hl1 b2 hb.2.1, valsWF_mono hl1 bs hb.2.2⟩
        obtain ⟨he2, hl2, ho2⟩ := evalBodyAux_wf hev (b2 :: bs) env1 r env' hrun he1 hrest
        exact ⟨he2, by omega, ho2⟩
      | err e =>
        simp only at hrun
        injection hrun with h1 h2
        subst h1; subst h2
        exact ⟨he1, hl1, fun w hw => by simp at hw⟩
      | panic m =>
        simp only at hrun
        injection hrun with h1 h2
        subst h1; subst h2
        exact ⟨he1, hl1, fun w hw => by simp at hw⟩
      | timeout =>
        simp only at hrun
        injection hrun with h1 h2
        subst h1; subst h2
        exact ⟨he1, hl1, fun w hw => by simp at hw⟩



theorem car_ok_wf {vals : List Value} {n : Nat} {w : Value}
    (hv : valsWF n vals = true) (h : car vals = .ok w) : valWF n w = true := by
  unfold car at h
  repeat' split at h
  all_goals try (exact absurd h fun hh => Outcome.noConfusion hh)
  all_goals injection h with h1
  all_goals subst h1
  all_goals simp only [valsWF, valWF, Bool.and_eq_true, Bool.and_true] at hv
  all_goals first | exact hv.1 | exact hv.1.1


theorem cdr_ok_wf {vals : List Value} {n : Nat} {w : Value}
    (hv : valsWF n vals = true) (h : cdr vals = .ok w) : valWF n w = true := by
  unfold cdr at h
  repeat' split at h
  all_goals try (exact absurd h fun hh => Outcome.noConfusion hh)
  all_goals injection h with h1
  all_goals subst h1
  all_goals simp only [valsWF, valWF, Bool.and_eq_true, Bool.and_true] at hv ⊢
  · exact hv.2
  · exact ⟨hv.1.2, hv.2⟩

theorem cons_ok_wf {vals : List Value} {n : Nat} {w : Value}
    (hv : valsWF n vals = true) (h : cons vals = .ok w) : valWF n w = true := by
  unfold cons at h
  repeat' split at h
  all_goals try (exact absurd h fun hh => Outcome.noConfusion hh)
  all_goals injection h with h1
  all_goals subst h1
  all_goals simp only [valsWF, valWF, Bool.and_eq_true, Bool.and_true] at hv ⊢
  all_goals first
    | exact ⟨hv.1, hv.2⟩
    | exact ⟨⟨hv.1, hv.2.1⟩, hv.2.2⟩

theorem numeric_binop_ok_shape {f : Int → Int → Option Int} {vals : List Value}
    {w : Value} (h : numeric_binop f vals = .ok w) : ∃ r, w = .Number r := by
  unfold numeric_binop at h
  repeat' split at h
  all_goals try (exact absurd h fun hh => Outcome.noConfusion hh)
  all_goals injection h with h1
  all_goals exact ⟨_, h1.symm⟩

theorem bool_binop_ok_shape {α : Type} {c : Value → Except Error α}
    {f : α → α → Bool} {vals : List Value} {w : Value}
    (h : bool_binop c f vals = .ok w) : ∃ b, w = .Bool b := by
  unfold bool_binop at h
  repeat' split at h
  all_goals try (exact absurd h fun hh => Outcome.noConfusion hh)
  all_goals injection h with h1
  all_goals exact ⟨_, h1.symm⟩

theorem eqv_ok_shape {fuel : Nat} {vals : List Value} {w : Value}
    (h : eqv fuel vals = .ok w) : ∃ b, w = .Bool b := by
  unfold eqv at h
  repeat' split at h
  all_goals try (exact absurd h fun hh => Outcome.noConfusion hh)
  all_goals injection h with h1
  all_goals exact ⟨_, h1.symm⟩

theorem equal_ok_shape {vals : List Value} {w : Value}
    (h : equal vals = .ok w) : ∃ b, w = .Bool b := by
  unfold equal at h
  repeat' split at h
  all_goals try (exact absurd h fun hh => Outcome.noConfusion hh)
  all_goals injection h with h1
  all_goals exact ⟨_, h1.symm⟩

theorem primApply_ok_wf {fuel : Nat} {f : PrimitiveFunc} {args : List Value}
    {n : Nat} {w : Value} (hargs : valsWF n args = true)
    (h : primApply fuel f args = .ok w) : valWF n w = true := by
  cases f
  case Car => exact car_ok_wf hargs h
  case Cdr => exact cdr_ok_wf hargs h
  case Cons => exact cons_ok_wf hargs h
  case Eqv => obtain ⟨b, rfl⟩ := eqv_ok_shape h; rfl
  case Equal => obtain ⟨b, rfl⟩ := equal_ok_shape h; rfl
  case Add => obtain ⟨r, rfl⟩ := numeric_binop_ok_shape h; rfl
  case Sub => obtain ⟨r, rfl⟩ := numeric_binop_ok_shape h; rfl
  case Mul => obtain ⟨r, rfl⟩ := numeric_binop_ok_shape h; rfl
  case Div => obtain ⟨r, rfl⟩ := numeric_binop_ok_shape h; rfl
  case Rem => obtain ⟨r, rfl⟩ := numeric_binop_ok_shape h; rfl
  all_goals obtain ⟨b, rfl⟩ := bool_binop_ok_shape h
  all_goals rfl


theorem valsWF_drop {n : Nat} {l : List Value} (k : Nat)
    (h : valsWF n l = true) : valsWF n (l.drop k) = true := by
  rw [valsWF_iff] at h ⊢
  exact fun v hv => h v (List.mem_of_mem_drop hv)

theorem run_wf :
    ∀ (n : Nat),
      (∀ (env : Env) (v : Value) (r : Outcome Value) (env' : Env),
        run n (.ev env v) = (r, env') → EnvWF env →
        valWF env.vals.length v = true →
        EnvWF env' ∧ env.vals.length ≤ env'.vals.length ∧
        ∀ w, r = .ok w → valWF env'.vals.length w = true) ∧
      (∀ (env : Env) (fv : Value) (args : List Value) (r : Outcome Value)
        (env' : Env),
        run n (.ap env fv args) = (r, env') → EnvWF env →
        valWF env.vals.length fv = true → valsWF env.vals.length args = true →
        EnvWF env' ∧ env.vals.length ≤ env'.vals.length ∧
        ∀ w, r = .ok w → valWF env'.vals.length w = true) := by
  intro n
  induction n with
  | zero =>
    constructor
    · intro env v r env' hrun h _
      simp only [run] at hrun
      injection hrun with h1 h2
      subst h1; subst h2
      exact ⟨h, le_refl _, fun w hw => by simp at hw⟩
    · intro env fv args r env' hrun h _ _
      simp only [run] at hrun
      injection hrun with h1 h2
      subst h1; subst h2
      exact ⟨h, le_refl _, fun w hw => by simp at hw⟩
  | succ n ih =>
    have hevp : EvPres (fun e w => run n (.ev e w)) :=
      fun env v r env' hr h hwf => ih.1 env v r env' hr h hwf
    constructor
    · -- the eval part
      intro env v r env' hrun h hv
      simp only [run] at hrun
      cases v with
      | String s =>
        injection hrun with h1 h2
        subst h1; subst h2
        exact ⟨h, le_refl _, fun w hw => by injection hw with h3; subst h3; rfl⟩
      | Number k =>
        injection hrun with h1 h2
        subst h1; subst h2
        exact ⟨h, le_refl _, fun w hw => by injection hw with h3; subst h3; rfl⟩
      | Bool b =>
        injection hrun with h1 h2
        subst h1; subst h2
        exact ⟨h, le_refl _, fun w hw => by injection hw with h3; subst h3; rfl⟩
      | Atom id =>
        injection hrun with h1 h2
        subst h1; subst h2
        exact ⟨h, le_refl _, fun w hw => (get_var_wf h id).2 w hw⟩
      | DottedList l t =>
        injection hrun with h1 h2
        subst h1; subst h2
        exact ⟨h, le_refl _, fun w hw => by simp at hw⟩
      | PrimitiveFunc f =>
        injection hrun with h1 h2
        subst h1; subst h2
        exact ⟨h, le_refl _, fun w hw => by simp at hw⟩
      | IOFunc f =>
        injection hrun with h1 h2
        subst h1; subst h2
        exact ⟨h, le_refl _, fun w hw => by simp at hw⟩
      | Func params vararg body closure =>
        injection hrun with h1 h2
        subst h1; subst h2
        exact ⟨h, le_refl _, fun w hw => by simp at hw⟩
      | Port id =>
        injection hrun with h1 h2
        subst h1; subst h2
        exact ⟨h, le_refl _, fun w hw => by simp at hw⟩
      | List vals =>
        simp only [valWF] at hv
        simp only at hrun
        split at hrun
        · -- quote
          rename_i x
          injection hrun with h1 h2
          subst h1; subst h2
          simp only [valsWF, valWF, Bool.and_eq_true, Bool.true_and,
            Bool.and_true] at hv
          exact ⟨h, le_refl _, fun w hw => by
            injection hw with h3; subst h3; exact hv⟩
        · -- if
          rename_i pred conseq alt
          simp only [valsWF, valWF, Bool.and_eq_true, Bool.true_and,
            Bool.and_true] at hv
          cases hP : run n (.ev env pred) with
          | mk r1 env1 =>
            rw [hP] at hrun
            obtain ⟨he1, hl1, _⟩ := ih.1 env pred r1 env1 hP h hv.1
            cases r1 with
            | ok v1 =>
              have hcont : ∀ (tgt : Value), valWF env.vals.length tgt = true →
                  run n (.ev env1 tgt) = (r, env') →
                  EnvWF env' ∧ env.vals.length ≤ env'.vals.length ∧
                  ∀ w, r = .ok w → valWF env'.vals.length w = true := by
                intro tgt htgt hrun2
                obtain ⟨he2, hl2, ho2⟩ := ih.1 env1 tgt r env' hrun2 he1
                  (valWF_mono hl1 tgt htgt)
                exact ⟨he2, by omega, ho2⟩
              cases v1 with
              | Bool b =>
                cases b with
                | false => simp only at hrun; exact hcont alt hv.2.2 hrun
                | true => simp only at hrun; exact hcont conseq hv.2.1 hrun
              | Atom s => simp only at hrun; exact hcont conseq hv.2.1 hrun
              | List l => simp only at hrun; exact hcont conseq hv.2.1 hrun
              | DottedList l t => simp only at hrun; exact hcont conseq hv.2.1 hrun
              | Number k => simp only at hrun; exact hcont conseq hv.2.1 hrun
              | String st => simp only at hrun; exact hcont conseq hv.2.1 hrun
              | PrimitiveFunc pf => simp only at hrun; exact hcont conseq hv.2.1 hrun
              | IOFunc iof => simp only at hrun; exact hcont conseq hv.2.1 hrun
              | Func p va bo cl => simp only at hrun; exact hcont conseq hv.2.1 hrun
              | Port pid => simp only at hrun; exact hcont conseq hv.2.1 hrun
            | err e =>
              simp only at hrun
              injection hrun with h1 h2
              subst h1; subst h2
              exact ⟨he1, hl1, fun w hw => by simp at hw⟩
            | panic m =>
              simp only at hrun
              injection hrun with h1 h2
              subst h1; subst h2
              exact ⟨he1, hl1, fun w hw => by simp at hw⟩
            | timeout =>
              simp only at hrun
              injection hrun with h1 h2
              subst h1; subst h2
              exact ⟨he1, hl1, fun w hw => by simp at hw⟩
        · -- set!
          rename_i var form
          simp only [valsWF, valWF, Bool.and_eq_true, Bool.true_and,
            Bool.and_true] at hv
          cases hF : run n (.ev env form) with
          | mk r1 env1 =>
            rw [hF] at hrun
            obtain ⟨he1, hl1, ho1⟩ := ih.1 env form r1 env1 hF h hv
            cases r1 with
            | ok v1 =>
              simp only at hrun
              obtain ⟨he2, hl2, hnp, hok⟩ := set_var_wf he1 (ho1 v1 rfl)
              rw [hrun] at he2 hl2 hnp hok
              simp only at he2 hl2 hnp hok
              refine ⟨he2, by omega, fun w hw => ?_⟩
              subst hw
              have := hok w rfl
              subst this
              rw [hl2]
              exact ho1 w rfl
            | err e =>
              simp only at hrun
              injection hrun with h1 h2
              subst h1; subst h2
              exact ⟨he1, hl1, fun w hw => by simp at hw⟩
            | panic m =>
              simp only at hrun
              injection hrun with h1 h2
              subst h1; subst h2
              exact ⟨he1, hl1, fun w hw => by simp at hw⟩
            | timeout =>
              simp only at hrun
              injection hrun with h1 h2
              subst h1; subst h2
              exact ⟨he1, hl1, fun w hw => by simp at hw⟩
        · -- define atom
          rename_i var form
          simp only [valsWF, valWF, Bool.and_eq_true, Bool.true_and,
            Bool.and_true] at hv
          cases hF : run n (.ev env form) with
          | mk r1 env1 =>
            rw [hF] at hrun
            obtain ⟨he1, hl1, ho1⟩ := ih.1 env form r1 env1 hF h hv
            cases r1 with
            | ok v1 =>
              simp only at hrun
              obtain ⟨he2, hl2, hret⟩ := define_var_wf he1 (ho1 v1 rfl)
              cases hD : env1.define_var var v1 with
              | mk v2 env2 =>
                rw [hD] at hrun he2 hl2 hret
                simp only at he2 hl2 hret hrun
                injection hrun with h1 h2
                subst h1; subst h2
                subst hret
                refine ⟨he2, by omega, fun w hw => ?_⟩
                injection hw with h3
                subst h3
                rw [hl2]
                exact valWF_mono (by omega) _ (ho1 _ rfl)
            | err e =>
              simp only at hrun
              injection hrun with h1 h2
              subst h1; subst h2
              exact ⟨he1, hl1, fun w hw => by simp at hw⟩
            | panic m =>
              simp only at hrun
              injection hrun with h1 h2
              subst h1; subst h2
              exact ⟨he1, hl1, fun w hw => by simp at hw⟩
            | timeout =>
              simp only at hrun
              injection hrun with h1 h2
              subst h1; subst h2
              exact ⟨he1, hl1, fun w hw => by simp at hw⟩
        · -- define with fixed params
          rename_i nameArgs body
          simp only [valsWF, valWF, Bool.and_eq_true, Bool.true_and,
            Bool.and_true] at hv
          split at hrun
          · rename_i name fargs
            have hfunc : valWF env.vals.length
                (.Func (fargs.map Value.display) none body env.make_closure) = true := by
              simp only [valWF, Bool.and_eq_true]
              exact ⟨hv.2, h.1⟩
            obtain ⟨he2, hl2, hret⟩ := define_var_wf h hfunc
            cases hD : env.define_var name
                (.Func (fargs.map Value.display) none body env.make_closure) with
            | mk v2 env2 =>
              rw [hD] at hrun he2 hl2 hret
              simp only at he2 hl2 hret hrun
              injection hrun with h1 h2
              subst h1; subst h2
              subst hret
              refine ⟨he2, by omega, fun w hw => ?_⟩
              injection hw with h3
              subst h3
              rw [hl2]
              exact valWF_mono (by omega) _ hfunc
          · injection hrun with h1 h2
            subst h1; subst h2
            exact ⟨h, le_refl _, fun w hw => by simp at hw⟩
        · -- define with vararg
          rename_i nameArgs varargVal body
          simp only [valsWF, valWF, Bool.and_eq_true, Bool.true_and,
            Bool.and_true] at hv
          split at hrun
          · rename_i name fargs
            have hfunc : valWF env.vals.length
                (.Func (fargs.map Value.display) (some varargVal.display) body
                  env.make_closure) = true := by
              simp only [valWF, Bool.and_eq_true]
              exact ⟨hv.2, h.1⟩
            obtain ⟨he2, hl2, hret⟩ := define_var_wf h hfunc
            cases hD : env.define_var name
                (.Func (fargs.map Value.display) (some varargVal.display) body
                  env.make_closure) with
            | mk v2 env2 =>
              rw [hD] at hrun he2 hl2 hret
              simp only at he2 hl2 hret hrun
              injection hrun with h1 h2
              subst h1; subst h2
              subst hret
              refine ⟨he2, by omega, fun w hw => ?_⟩
              injection hw with h3
              subst h3
              rw [hl2]
              exact valWF_mono (by omega) _ hfunc
          · injection hrun with h1 h2
            subst h1; subst h2
            exact ⟨h, le_refl _, fun w hw => by simp at hw⟩
        · -- lambda with fixed params
          rename_i ps body
          simp only [valsWF, valWF, Bool.and_eq_true, Bool.true_and,
            Bool.and_true] at hv
          injection hrun with h1 h2
          subst h1; subst h2
          refine ⟨h, le_refl _, fun w hw => ?_⟩
          injection hw with h3
          subst h3
          simp only [valWF, Bool.and_eq_true]
          exact ⟨hv.2, h.1⟩
        · -- lambda with vararg
          rename_i ps varargVal body
          simp only [valsWF, valWF, Bool.and_eq_true, Bool.true_and,
            Bool.and_true] at hv
          injection hrun with h1 h2
          subst h1; subst h2
          refine ⟨h, le_refl _, fun w hw => ?_⟩
          injection hw with h3
          subst h3
          simp only [valWF, Bool.and_eq_true]
          exact ⟨hv.2, h.1⟩
        · -- lambda with bare vararg atom
          rename_i varargName body
          simp only [valsWF, valWF, Bool.and_eq_true, Bool.true_and,
            Bool.and_true] at hv
          injection hrun with h1 h2
          subst h1; subst h2
          refine ⟨h, le_refl _, fun w hw => ?_⟩
          injection hw with h3
          subst h3
          simp only [valWF, valsWF, Bool.and_eq_true]
          exact ⟨hv, h.1⟩
        · -- load
          injection hrun with h1 h2
          subst h1; subst h2
          exact ⟨h, le_refl _, fun w hw => by simp at hw⟩
        · -- generic application
          rename_i f as nm1 nm2 nm3 nm4 nm5 nm6 nm7 nm8 nm9 nm10
          simp only [valsWF, valWF, Bool.and_eq_true, Bool.true_and,
            Bool.and_true] at hv
          cases hF : run n (.ev env f) with
          | mk r1 env1 =>
            rw [hF] at hrun
            obtain ⟨he1, hl1, ho1⟩ := ih.1 env f r1 env1 hF h hv.1
            cases r1 with
            | ok fv =>
              simp only at hrun
              cases hA : evalArgsAux (fun e w => run n (.ev e w)) env1 as with
              | mk r2 env2 =>
                rw [hA] at hrun
                obtain ⟨he2, hl2, ho2⟩ := evalArgsAux_wf hevp as env1 r2 env2 hA
                  he1 (valsWF_mono hl1 as hv.2)
                cases r2 with
                | ok avs =>
                  simp only at hrun
                  cases hAp : run n (.ap env2 fv avs) with
                  | mk r3 env3 =>
                    rw [hAp] at hrun
                    obtain ⟨he3, hl3, ho3⟩ := ih.2 env2 fv avs r3 env3 hAp he2
                      (valWF_mono (by omega) fv (ho1 fv rfl)) (ho2 avs rfl)
                    cases r3 with
                    | ok v1 =>
                      simp only at hrun
                      injection hrun with h1 h2
                      subst h1; subst h2
                      refine ⟨⟨closBounded_mono hl3 he2.1, he3.2⟩, by
                        simp only [Env.load_closure]; omega, fun w hw => ?_⟩
                      injection hw with h3
                      subst h3
                      simp only [Env.load_closure]
                      exact ho3 _ rfl
                    | err e =>
                      simp only at hrun
                      injection hrun with h1 h2
                      subst h1; subst h2
                      refine ⟨⟨closBounded_mono hl3 he2.1, he3.2⟩, by
                        simp only [Env.load_closure]; omega, fun w hw => by simp at hw⟩
                    | panic m =>
                      simp only at hrun
                      injection hrun with h1 h2
                      subst h1; subst h2
                      exact ⟨he3, by omega, fun w hw => by simp at hw⟩
                    | timeout =>
                      simp only at hrun
                      injection hrun with h1 h2
                      subst h1; subst h2
                      exact ⟨he3, by omega, fun w hw => by simp at hw⟩
                | err e =>
                  simp only at hrun
                  injection hrun with h1 h2
                  subst h1; subst h2
                  exact ⟨he2, by omega, fun w hw => by simp at hw⟩
                | panic m =>
                  simp only at hrun
                  injection hrun with h1 h2
                  subst h1; subst h2
                  exact ⟨he2, by omega, fun w hw => by simp at hw⟩
                | timeout =>
                  simp only at hrun
                  injection hrun with h1 h2
                  subst h1; subst h2
                  exact ⟨he2, by omega, fun w hw => by simp at hw⟩
            | err e =>
              simp only at hrun
              injection hrun with h1 h2
              subst h1; subst h2
              exact ⟨he1, hl1, fun w hw => by simp at hw⟩
            | panic m =>
              simp only at hrun
              injection hrun with h1 h2
              subst h1; subst h2
              exact ⟨he1, hl1, fun w hw => by simp at hw⟩
            | timeout =>
              simp only at hrun
              injection hrun with h1 h2
              subst h1; subst h2
              exact ⟨he1, hl1, fun w hw => by simp at hw⟩
        · -- empty list
          injection hrun with h1 h2
          subst h1; subst h2
          exact ⟨h, le_refl _, fun w hw => by simp at hw⟩
    · -- the apply part
      intro env fv args r env' hrun h hfv hargs
      simp only [run] at hrun
      cases fv with
      | PrimitiveFunc f =>
        injection hrun with h1 h2
        subst h1; subst h2
        exact ⟨h, le_refl _, fun w hw => primApply_ok_wf hargs hw⟩
      | IOFunc f =>
        injection hrun with h1 h2
        subst h1; subst h2
        exact ⟨h, le_refl _, fun w hw => by simp at hw⟩
      | Func params vararg body closure =>
        simp only [valWF, Bool.and_eq_true] at hfv
        simp only at hrun
        split at hrun
        · -- arity error
          injection hrun with h1 h2
          subst h1; subst h2
          exact ⟨h, le_refl _, fun w hw => by simp at hw⟩
        · -- bind and run body
          obtain ⟨hwc, hvals⟩ := with_closure_wf h hfv.2
          have hlen1 : (env.with_closure closure).vals.length = env.vals.length := by
            rw [hvals]
          cases hB : bindLoop (env.with_closure closure) params args with
          | mk b env2 =>
            have hbl := bindLoop_wf params args (env.with_closure closure) hwc
              (by rw [hlen1]; exact hargs)
            rw [hB] at hbl
            simp only at hbl
            obtain ⟨he2, hl2⟩ := hbl
            rw [hlen1] at hl2
            rw [hB] at hrun
            cases b with
            | false =>
              simp only at hrun
              injection hrun with h1 h2
              subst h1; subst h2
              exact ⟨he2, hl2, fun w hw => by simp at hw⟩
            | true =>
              simp only at hrun
              cases vararg with
              | none =>
                simp only at hrun
                obtain ⟨he3, hl3, ho3⟩ := evalBodyAux_wf hevp body env2 r env'
                  hrun he2 (valsWF_mono (by omega) body hfv.1)
                exact ⟨he3, by omega, ho3⟩
              | some va =>
                simp only at hrun
                have hdrop : valWF env2.vals.length
                    (.List (args.drop (varargStart params))) = true := by
                  simp only [valWF]
                  exact valsWF_drop _ (valsWF_mono (by omega) args hargs)
                obtain ⟨heD, hlD, _⟩ := define_var_wf he2 hdrop
                cases hD : env2.define_var va
                    (.List (args.drop (varargStart params))) with
                | mk v3 env3 =>
                  rw [hD] at hrun heD hlD
                  simp only at heD hlD hrun
                  obtain ⟨he4, hl4, ho4⟩ := evalBodyAux_wf hevp body env3 r env'
                    hrun heD (valsWF_mono (by omega) body hfv.1)
                  exact ⟨he4, by omega, ho4⟩
      | Atom s =>
        injection hrun with h1 h2
        subst h1; subst h2
        exact ⟨h, le_refl _, fun w hw => by simp at hw⟩
      | List l =>
        injection hrun with h1 h2
        subst h1; subst h2
        exact ⟨h, le_refl _, fun w hw => by simp at hw⟩
      | DottedList l t =>
        injection hrun with h1 h2
        subst h1; subst h2
        exact ⟨h, le_refl _, fun w hw => by simp at hw⟩
      | Number k =>
        injection hrun with h1 h2
        subst h1; subst h2
        exact ⟨h, le_refl _, fun w hw => by simp at hw⟩
      | String s =>
        injection hrun with h1 h2
        subst h1; subst h2
        exact ⟨h, le_refl _, fun w hw => by simp at hw⟩
      | Bool b =>
        injection hrun with h1 h2
        subst h1; subst h2
        exact ⟨h, le_refl _, fun w hw => by simp at hw⟩
      | Port id =>
        injection hrun with h1 h2
        subst h1; subst h2
        exact ⟨h, le_refl _, fun w hw => by simp at hw⟩

/-- C10. The environment invariant — every slot index stored in the live
name-to-slot mapping or in any closure snapshot reachable from the store
is strictly less than the slot store's length — is preserved by
`define_var`, `set_var`, `with_closure`, `load_closure`, produced by
`make_closure`, and preserved by evaluation and application built on
them; the slot store never shrinks; and under the invariant, variable
lookup and assignment never index out of bounds. -/
theorem c10_env_slot_invariant :
    (∀ (n : Nat) (env : Env) (v : Value) (r : Outcome Value) (env2 : Env),
       eval n env v = (r, env2) → EnvWF env → valWF env.vals.length v = true →
       EnvWF env2 ∧ env.vals.length ≤ env2.vals.length ∧
       ∀ w, r = .ok w → valWF env2.vals.length w = true) ∧
    (∀ (n : Nat) (env : Env) (fv : Value) (args : List Value)
       (r : Outcome Value) (env2 : Env),
       apply n env fv args = (r, env2) → EnvWF env →
       valWF env.vals.length fv = true → valsWF env.vals.length args = true →
       EnvWF env2 ∧ env.vals.length ≤ env2.vals.length ∧
       ∀ w, r = .ok w → valWF env2.vals.length w = true) ∧
    (∀ (env : Env) (x : String) (w : Value), EnvWF env →
       valWF env.vals.length w = true →
       EnvWF (env.define_var x w).2 ∧
       (env.define_var x w).2.vals.length = env.vals.length + 1) ∧
    (∀ (env : Env) (x : String) (w : Value), EnvWF env →
       valWF env.vals.length w = true →
       EnvWF (env.set_var x w).2 ∧
       (env.set_var x w).2.vals.length = env.vals.length ∧
       ∀ m, (env.set_var x w).1 ≠ .panic m) ∧
    (∀ (env : Env) (c : VarMap), EnvWF env →
       closBounded env.vals.length c = true →
       EnvWF (env.with_closure c) ∧ (env.with_closure c).vals = env.vals) ∧
    (∀ (env : Env) (c : VarMap), EnvWF env →
       closBounded env.vals.length c = true →
       EnvWF (env.load_closure c) ∧ (env.load_closure c).vals = env.vals) ∧
    (∀ env : Env, EnvWF env →
       closBounded env.vals.length env.make_closure = true) ∧
    (∀ (env : Env) (x : String), EnvWF env → ∀ m, env.get_var x ≠ .panic m) := by
  refine ⟨?_, ?_, ?_, ?_, ?_, ?_, ?_, ?_⟩
  · intro n env v r env2 hrun h hv
    exact (run_wf n).1 env v r env2 hrun h hv
  · intro n env fv args r env2 hrun h hfv hargs
    exact (run_wf n).2 env fv args r env2 hrun h hfv hargs
  · intro env x w h hw
    obtain ⟨h1, h2, _⟩ := define_var_wf h hw
    exact ⟨h1, h2⟩
  · intro env x w h hw
    obtain ⟨h1, h2, h3, _⟩ := set_var_wf h hw
    exact ⟨h1, h2, h3⟩
  · intro env c h hc
    exact with_closure_wf h hc
  · intro env c h hc
    exact load_closure_wf h hc
  · intro env h
    exact h.1
  · intro env x h
    exact (get_var_wf h x).1

/-- Witness for C10: the invariant holds for the initial environment and
is preserved through a concrete evaluation. -/
theorem c10_witness :
    EnvWF (eval 2 Env.primitive_bindings (.List [.Atom "quote", .Number 1])).2 ∧
    Env.primitive_bindings.vals.length ≤
      (eval 2 Env.primitive_bindings (.List [.Atom "quote", .Number 1])).2.vals.length ∧
    valWF (eval 2 Env.primitive_bindings
      (.List [.Atom "quote", .Number 1])).2.vals.length (.Number 1) = true :=
  ⟨(c10_env_slot_invariant.1 2 Env.primitive_bindings
      (.List [.Atom "quote", .Number 1]) (.ok (.Number 1)) Env.primitive_bindings
      rfl ⟨rfl, rfl⟩ rfl).1,
   (c10_env_slot_invariant.1 2 Env.primitive_bindings
      (.List [.Atom "quote", .Number 1]) (.ok (.Number 1)) Env.primitive_bindings
      rfl ⟨rfl, rfl⟩ rfl).2.1,
   (c10_env_slot_invariant.1 2 Env.primitive_bindings
      (.List [.Atom "quote", .Number 1]) (.ok (.Number 1)) Env.primitive_bindings
      rfl ⟨rfl, rfl⟩ rfl).2.2 (.Number 1) rfl⟩

end SchemeRs
